import Mathlib

/-!
Verification of the batch-translation core of `subtitle-tools`.

The Go sources are shallowly embedded over `List Char` (Go strings are
UTF-8 byte strings; the embedding works at rune granularity, which is the
granularity at which every modelled function operates, except where byte
counts matter — there `Char.utf8Size` recovers exact byte lengths).
Fallible Go functions returning `(T, error)` become `Except E T` or
`Option T`; error values become inductive constructors carrying the data
the Go error message interpolates.

Embedded sources:
  - internal/translate/format.go   (wire format encoder and resilient decoder)
  - internal/translate/http_helpers.go (backoff, Retry-After, key rotation)
  - internal/fs/fs.go              (batching, batch validation, option checks)
-/

deriving instance DecidableEq for Except

namespace SubtitleTools

/-- characters Go's `unicode.IsSpace` recognises in the Latin-1 range; the
exotic Unicode space classes (Ogham space mark etc.) never occur in the
inputs this development evaluates and are omitted. -/
def isGoSpace (c : Char) : Bool :=
  c == ' ' || c == '\t' || c == '\n' || c.toNat == 11 || c.toNat == 12 ||
  c == '\r' || c.toNat == 0x85 || c.toNat == 0xA0

/-- Go `strings.TrimSpace`. -/
def trimSpace (s : List Char) : List Char :=
  ((s.dropWhile isGoSpace).reverse.dropWhile isGoSpace).reverse

/-- Go `strings.ReplaceAll(s, "\r\n", "\n")`. -/
def replaceCRLF : List Char → List Char
  | [] => []
  | '\r' :: '\n' :: rest => '\n' :: replaceCRLF rest
  | c :: rest => c :: replaceCRLF rest

/-- lower-case hex digit table used by Go's encoders (`"0123456789abcdef"`). -/
def hexDigitChar (n : Nat) : Char :=
  match n with
  | 0 => '0' | 1 => '1' | 2 => '2' | 3 => '3' | 4 => '4'
  | 5 => '5' | 6 => '6' | 7 => '7' | 8 => '8' | 9 => '9'
  | 10 => 'a' | 11 => 'b' | 12 => 'c' | 13 => 'd' | 14 => 'e'
  | _ => 'f'

/-- one character of Go `encoding/json` string encoding (HTML escaping on,
as `json.Marshal` defaults): quote, backslash and control characters are
escaped; `<`, `>`, `&`, U+2028 and U+2029 are hex-escaped; everything else
is emitted verbatim. -/
def quoteChar (c : Char) : List Char :=
  if c = '"' then ['\\', '"']
  else if c = '\\' then ['\\', '\\']
  else if c = '\n' then ['\\', 'n']
  else if c = '\r' then ['\\', 'r']
  else if c = '\t' then ['\\', 't']
  else if c = '<' ∨ c = '>' ∨ c = '&' ∨ c.toNat < 0x20 then
    ['\\', 'u', '0', '0', hexDigitChar (c.toNat / 16), hexDigitChar (c.toNat % 16)]
  else if c.toNat = 0x2028 ∨ c.toNat = 0x2029 then
    ['\\', 'u', '2', '0', '2', hexDigitChar (c.toNat % 16)]
  else [c]

/-- Go `encoding/json` string encoding of a whole string (content only,
without the surrounding quotes). -/
def quoteStr (s : List Char) : List Char :=
  (s.map quoteChar).flatten

/-- decimal digits of a natural number, fuel-structured so the kernel can
evaluate it (`natToDec` supplies enough fuel). -/
def natDigitsGo : Nat → Nat → List Char
  | 0, _ => []
  | fuel + 1, n =>
    if n < 10 then [hexDigitChar n]
    else natDigitsGo fuel (n / 10) ++ [hexDigitChar (n % 10)]

/-- decimal rendering of a natural number, as Go `strconv.Itoa`. -/
def natToDec (n : Nat) : List Char := natDigitsGo (n + 1) n

/-- decimal rendering of an integer, as Go `strconv.Itoa` / `%d`. -/
def intToDec (i : Int) : List Char :=
  if i < 0 then '-' :: natToDec i.natAbs else natToDec i.toNat

/-- `json.Marshal(wireItem{Idx: idx, Text: text})`: always exactly
`{"idx":N,"text":"..."}` with no spaces. -/
def encodeWireItem (idx : Int) (text : List Char) : List Char :=
  '{' :: '"' :: 'i' :: 'd' :: 'x' :: '"' :: ':' :: intToDec idx ++
  ',' :: '"' :: 't' :: 'e' :: 'x' :: 't' :: '"' :: ':' :: '"' :: quoteStr text ++ ['"', '}']

/-- `FormatOneForTranslation` (format.go): CRLF-normalises the text, then
JSON-marshals the wire item (marshalling a `wireItem` cannot fail). -/
def FormatOneForTranslation (idx : Int) (text : List Char) : List Char :=
  encodeWireItem idx (replaceCRLF text)

inductive FmtErr
  | lengthMismatch
  | idxNotPositive
  deriving DecidableEq, Repr

/-- the per-item loop body of `FormatForTranslation`: positivity check plus
encoding of each pair. -/
def formatPairs : List (Int × List Char) → Except FmtErr (List (List Char))
  | [] => .ok []
  | (i, t) :: rest =>
    if i ≤ 0 then .error .idxNotPositive
    else do
      let r ← formatPairs rest
      .ok (FormatOneForTranslation i t :: r)

/-- join with a single newline separator before every item but the first,
as the `strings.Builder` loop of `FormatForTranslation` writes them. -/
def joinNL : List (List Char) → List Char
  | [] => []
  | [x] => x
  | x :: xs => x ++ '\n' :: joinNL xs

/-- `FormatForTranslation` (format.go): length check, then the encoded
items joined by single newlines. -/
def FormatForTranslation (idxs : List Int) (texts : List (List Char)) :
    Except FmtErr (List Char) :=
  if idxs.length ≠ texts.length then .error .lengthMismatch
  else do
    let items ← formatPairs (idxs.zip texts)
    .ok (joinNL items)

/-! JSON decoding: a model of `encoding/json.Unmarshal` restricted to the
target types the decoder uses (`wireItem`, `[]wireItem`, `string`).
Numbers wider than int64 are modelled as unbounded integers. -/

/-- JSON insignificant whitespace (space, tab, newline, carriage return). -/
def isJSONWS (c : Char) : Bool :=
  c == ' ' || c == '\t' || c == '\n' || c == '\r'

/-- skip JSON whitespace. -/
def skipWS (s : List Char) : List Char := s.dropWhile isJSONWS

/-- value of one hex digit. -/
def hexVal (c : Char) : Option Nat :=
  if '0' ≤ c ∧ c ≤ '9' then some (c.toNat - 48)
  else if 'a' ≤ c ∧ c ≤ 'f' then some (c.toNat - 87)
  else if 'A' ≤ c ∧ c ≤ 'F' then some (c.toNat - 55)
  else none

/-- value of a `\uXXXX` escape. -/
def hex4 (a b c d : Char) : Option Nat := do
  let x ← hexVal a
  let y ← hexVal b
  let z ← hexVal c
  let w ← hexVal d
  pure (x * 4096 + y * 256 + z * 16 + w)

/-- decode the body of a JSON string literal (the part after the opening
quote); returns the decoded content and the input remaining after the
closing quote.  Mirrors Go's scanner plus `unquoteBytes`: raw control
characters and invalid escapes are rejected; a `\uXXXX` escape that is a
lone or ill-paired surrogate decodes to U+FFFD exactly as
`utf16.DecodeRune` does.  The `Nat` argument is fuel counting recursion
depth (each step consumes at least one character, so `length + 1` fuel
always suffices; `parseJSONString` supplies it). -/
def parseJSONStringBody : Nat → List Char → Option (List Char × List Char)
  | 0, _ => none
  | _ + 1, [] => none
  | _ + 1, '"' :: rest => some ([], rest)
  | fuel + 1, '\\' :: e =>
    match e with
    | '"' :: rest => (fun r => ('"' :: r.1, r.2)) <$> parseJSONStringBody fuel rest
    | '\\' :: rest => (fun r => ('\\' :: r.1, r.2)) <$> parseJSONStringBody fuel rest
    | '/' :: rest => (fun r => ('/' :: r.1, r.2)) <$> parseJSONStringBody fuel rest
    | 'b' :: rest => (fun r => ('\x08' :: r.1, r.2)) <$> parseJSONStringBody fuel rest
    | 'f' :: rest => (fun r => ('\x0c' :: r.1, r.2)) <$> parseJSONStringBody fuel rest
    | 'n' :: rest => (fun r => ('\n' :: r.1, r.2)) <$> parseJSONStringBody fuel rest
    | 'r' :: rest => (fun r => ('\r' :: r.1, r.2)) <$> parseJSONStringBody fuel rest
    | 't' :: rest => (fun r => ('\t' :: r.1, r.2)) <$> parseJSONStringBody fuel rest
    | 'u' :: h1 :: h2 :: h3 :: h4 :: rest =>
      match hex4 h1 h2 h3 h4 with
      | none => none
      | some v =>
        if v < 0xD800 ∨ (0xE000 ≤ v ∧ v < 0x110000) then
          (fun r => (Char.ofNat v :: r.1, r.2)) <$> parseJSONStringBody fuel rest
        else
          match rest with
          | '\\' :: 'u' :: g1 :: g2 :: g3 :: g4 :: rest2 =>
            match hex4 g1 g2 g3 g4 with
            | some w =>
              if v < 0xDC00 ∧ 0xDC00 ≤ w ∧ w < 0xE000 then
                (fun r => (Char.ofNat (0x10000 + (v - 0xD800) * 0x400 + (w - 0xDC00)) :: r.1, r.2)) <$>
                  parseJSONStringBody fuel rest2
              else
                (fun r => ('�' :: r.1, r.2)) <$>
                  parseJSONStringBody fuel ('\\' :: 'u' :: g1 :: g2 :: g3 :: g4 :: rest2)
            | none => (fun r => ('�' :: r.1, r.2)) <$> parseJSONStringBody fuel rest
          | _ => (fun r => ('�' :: r.1, r.2)) <$> parseJSONStringBody fuel rest
    | _ => none
  | fuel + 1, c :: rest =>
    if c.toNat < 0x20 then none
    else (fun r => (c :: r.1, r.2)) <$> parseJSONStringBody fuel rest

/-- `parseJSONStringBody` with enough fuel for its input. -/
def parseJSONString (s : List Char) : Option (List Char × List Char) :=
  parseJSONStringBody (s.length + 1) s

/-- decimal digit test. -/
def isDigitCh (c : Char) : Bool := '0' ≤ c ∧ c ≤ '9'

/-- numeric value of a digit run. -/
def digitsToNat (ds : List Char) : Nat :=
  ds.foldl (fun acc c => acc * 10 + (c.toNat - 48)) 0

/-- parse a JSON number that must fit Go's `int` field: the scanner's
number grammar with no fraction and no exponent (Go decodes `idx` with
`strconv.ParseInt` on the literal, which rejects `.`/`e`/`E`). -/
def parseIntLit (s : List Char) : Option (Int × List Char) :=
  let (neg, s1) : Bool × List Char :=
    match s with
    | '-' :: rest => (true, rest)
    | _ => (false, s)
  let ds := s1.takeWhile isDigitCh
  let rest := s1.dropWhile isDigitCh
  if ds = [] then none
  else if ds.head? = some '0' ∧ ds.length > 1 then none
  else if rest.head? = some '.' ∨ rest.head? = some 'e' ∨ rest.head? = some 'E' then none
  else some (if neg then -(digitsToNat ds : Int) else (digitsToNat ds : Int), rest)

/-- parse (and discard) a generic JSON number, fraction and exponent
allowed. -/
def parseNumSkip (s : List Char) : Option (List Char) :=
  let s1 := match s with | '-' :: rest => rest | _ => s
  let ds := s1.takeWhile isDigitCh
  let r1 := s1.dropWhile isDigitCh
  if ds = [] then none
  else if ds.head? = some '0' ∧ ds.length > 1 then none
  else
    let r2 := match r1 with
      | '.' :: rest =>
        if (rest.takeWhile isDigitCh) = [] then none
        else some (rest.dropWhile isDigitCh)
      | _ => some r1
    match r2 with
    | none => none
    | some r2 =>
      match r2 with
      | 'e' :: rest | 'E' :: rest =>
        let rest := match rest with | '+' :: t => t | '-' :: t => t | _ => rest
        if (rest.takeWhile isDigitCh) = [] then none
        else some (rest.dropWhile isDigitCh)
      | _ => some r2

/-- mode tag for the fuelled generic-value skipper. -/
inductive SkipMode
  | value
  | objMembers (first : Bool)
  | arrElems (first : Bool)
  deriving DecidableEq, Repr

/-- skip one generic JSON value (used for object keys `json.Unmarshal`
ignores); fuelled, callers pass fuel ≥ twice the input length so fuel
never runs out on a value the Go scanner accepts. -/
def skipJSON : Nat → SkipMode → List Char → Option (List Char)
  | 0, _, _ => none
  | fuel + 1, .value, s =>
    let s := skipWS s
    match s with
    | '"' :: rest => (fun r => r.2) <$> parseJSONString rest
    | '{' :: rest => skipJSON fuel (.objMembers true) rest
    | '[' :: rest => skipJSON fuel (.arrElems true) rest
    | 't' :: 'r' :: 'u' :: 'e' :: rest => some rest
    | 'f' :: 'a' :: 'l' :: 's' :: 'e' :: rest => some rest
    | 'n' :: 'u' :: 'l' :: 'l' :: rest => some rest
    | _ => parseNumSkip s
  | fuel + 1, .objMembers first, s =>
    let s1 := skipWS s
    match s1 with
    | '}' :: rest => if first then some rest else none
    | '"' :: rest => do
      let (_, r1) ← parseJSONString rest
      let r2 := skipWS r1
      match r2 with
      | ':' :: r3 => do
        let r4 ← skipJSON fuel .value r3
        let r5 := skipWS r4
        match r5 with
        | ',' :: r6 => skipJSON fuel (.objMembers false) r6
        | '}' :: r6 => some r6
        | _ => none
      | _ => none
    | _ => none
  | fuel + 1, .arrElems first, s =>
    let s1 := skipWS s
    match s1 with
    | ']' :: rest => if first then some rest else none
    | _ => do
      let r1 ← skipJSON fuel .value s1
      let r2 := skipWS r1
      match r2 with
      | ',' :: r3 => skipJSON fuel (.arrElems false) r3
      | ']' :: r3 => some r3
      | _ => none

/-- `wireItem` (format.go): the NDJSON wire shape `{idx, text}`. -/
structure WireItem where
  Idx : Int
  Text : List Char
  deriving DecidableEq, Repr

/-- ASCII case folding; Go matches struct-field keys with
`strings.EqualFold`, which on the ASCII-only keys `idx`/`text` is exactly
ASCII folding. -/
def asciiLower (c : Char) : Char :=
  if 'A' ≤ c ∧ c ≤ 'Z' then Char.ofNat (c.toNat + 32) else c

/-- case-insensitive key comparison. -/
def keyFold (a b : List Char) : Bool :=
  a.map asciiLower == b.map asciiLower

/-- parse one `key: value` member into the accumulating `WireItem`;
returns the updated item and the input remaining after the value.
A `null` value leaves the field untouched, as `json.Unmarshal` does. -/
def parseWireMember (s : List Char) (acc : WireItem) : Option (WireItem × List Char) :=
  match s with
  | '"' :: rest => do
    let (key, r1) ← parseJSONString rest
    let r2 := skipWS r1
    match r2 with
    | ':' :: r3 =>
      let r4 := skipWS r3
      if keyFold key ['i', 'd', 'x'] then
        match r4 with
        | 'n' :: 'u' :: 'l' :: 'l' :: r5 => some (acc, r5)
        | _ => do
          let (v, r5) ← parseIntLit r4
          pure ({ acc with Idx := v }, r5)
      else if keyFold key ['t', 'e', 'x', 't'] then
        match r4 with
        | 'n' :: 'u' :: 'l' :: 'l' :: r5 => some (acc, r5)
        | '"' :: rr => do
          let (txt, r5) ← parseJSONString rr
          pure ({ acc with Text := txt }, r5)
        | _ => none
      else do
        let r5 ← skipJSON (2 * r4.length + 8) .value r4
        pure (acc, r5)
    | _ => none
  | _ => none

/-- the member loop of unmarshalling into a `wireItem` (after the opening
brace); fuelled by the input length. -/
def parseWireMembers : Nat → Bool → List Char → WireItem → Option (WireItem × List Char)
  | 0, _, _, _ => none
  | fuel + 1, first, s, acc =>
    let s1 := skipWS s
    match s1 with
    | '}' :: rest => if first then some (acc, rest) else none
    | _ => do
      let (acc', r5) ← parseWireMember s1 acc
      let r6 := skipWS r5
      match r6 with
      | ',' :: r7 => parseWireMembers fuel false r7 acc'
      | '}' :: r7 => some (acc', r7)
      | _ => none

/-- `json.Unmarshal(data, &wireItem{})`: a single object (fields default
to the zero value), with nothing but whitespace after it. -/
def unmarshalWireItem (s : List Char) : Option WireItem :=
  let s1 := skipWS s
  match s1 with
  | '{' :: rest => do
    let (it, r) ← parseWireMembers (s.length + 1) true rest ⟨0, []⟩
    if skipWS r = [] then some it else none
  | _ => none

/-- the element loop of unmarshalling into `[]wireItem` (after the opening
bracket); a `null` element leaves a zero item, as Go does. -/
def parseWireElems : Nat → Bool → List Char → List WireItem → Option (List WireItem × List Char)
  | 0, _, _, _ => none
  | fuel + 1, first, s, acc =>
    let s1 := skipWS s
    match s1 with
    | ']' :: rest => if first then some (acc.reverse, rest) else none
    | _ => do
      let (it, r) ←
        match s1 with
        | 'n' :: 'u' :: 'l' :: 'l' :: r => some ((⟨0, []⟩ : WireItem), r)
        | '{' :: rest => do
          let (it, r) ← parseWireMembers (s.length + 1) true rest ⟨0, []⟩
          pure (it, r)
        | _ => none
      let r2 := skipWS r
      match r2 with
      | ',' :: r3 => parseWireElems fuel false r3 (it :: acc)
      | ']' :: r3 => some ((it :: acc).reverse, r3)
      | _ => none

/-- `json.Unmarshal(data, &[]wireItem{})`: a single array with nothing but
whitespace after it. -/
def unmarshalWireItems (s : List Char) : Option (List WireItem) :=
  let s1 := skipWS s
  match s1 with
  | '[' :: rest => do
    let (items, r) ← parseWireElems (s.length + 1) true rest []
    if skipWS r = [] then some items else none
  | _ => none

/-! The resilient decoder `ParseTranslatedLines` (format.go) and its tiers. -/

/-- `ParsedLine` (format.go). -/
structure ParsedLine where
  Idx : Int
  Text : List Char
  deriving DecidableEq, Repr

/-- decoder errors; each constructor stands for one `errors.New`/`fmt.Errorf`
site in format.go and carries the data its message interpolates (byte
offsets, reported only inside messages, are omitted; object/line numbers
are kept). -/
inductive ParseErr
  | emptyOutput
  | invalidJSONArray
  | invalidIdxInItem (idx : Int)
  | noTranslatedLines
  | invalidJSONLine (lineNo : Nat) (excerpt : List Char)
  | invalidIdxAtLine (lineNo : Nat) (idx : Int) (excerpt : List Char)
  | invalidJSONObject (n : Nat) (excerpt : List Char)
  | invalidIdxInObject (n : Nat) (idx : Int)
  | cannotSalvageObjectErr (n : Nat) (excerpt : List Char)
  | cannotSalvageObjectNotOk (n : Nat) (excerpt : List Char)
  | invalidIdxInSalvaged (n : Nat) (idx : Int)
  | cannotReunmarshalSalvaged (n : Nat)
  deriving DecidableEq, Repr

/-- `abbreviate` (format.go), at rune granularity. -/
def abbreviate (s0 : List Char) (maxLen : Nat) : List Char :=
  let s := trimSpace s0
  if maxLen = 0 ∨ s.length ≤ maxLen then s
  else if maxLen ≤ 3 then s.take maxLen
  else s.take (maxLen - 3) ++ ['.', '.', '.']

/-- `AbbreviationMax` (format.go). -/
def AbbreviationMax : Nat := 250

/-- `extractJSONObjectSegmentsWithOffsets` (format.go): scan tracking
string/escape state and brace depth, emitting every top-level balanced
`{...}` segment.  The index-based substring extraction of the source is
rendered as a reversed accumulator `cur` that is `some` exactly while
`start ≥ 0` in the source; offsets (used only in error messages) are
dropped. -/
def extractSegs : List Char → Bool → Bool → Nat → Option (List Char) → List (List Char)
  | [], _, _, _, _ => []
  | c :: rest, true, esc, depth, cur =>
    let cur' := cur.map (fun a => c :: a)
    if esc then extractSegs rest true false depth cur'
    else if c = '\\' then extractSegs rest true true depth cur'
    else if c = '"' then extractSegs rest false false depth cur'
    else extractSegs rest true false depth cur'
  | c :: rest, false, _, depth, cur =>
    if c = '"' then extractSegs rest true false depth (cur.map (fun a => c :: a))
    else if c = '{' then
      if depth = 0 then extractSegs rest false false 1 (some [c])
      else extractSegs rest false false (depth + 1) (cur.map (fun a => c :: a))
    else if c = '}' then
      if depth = 0 then extractSegs rest false false 0 cur
      else if depth = 1 then
        match cur with
        | some a => trimSpace (('}' :: a).reverse) :: extractSegs rest false false 0 none
        | none => extractSegs rest false false 0 none
      else extractSegs rest false false (depth - 1) (cur.map (fun a => c :: a))
    else extractSegs rest false false depth (cur.map (fun a => c :: a))

/-- top-level entry of the segment scanner. -/
def extractJSONObjectSegments (s : List Char) : List (List Char) :=
  extractSegs s false false 0 none

/-- `stripCodeFences` helper: Go `strings.Index(s, "\n")` + slice past it. -/
def dropThroughNL : List Char → Option (List Char)
  | [] => none
  | '\n' :: rest => some rest
  | _ :: rest => dropThroughNL rest

/-- `stripCodeFences` helper: Go `s[:strings.LastIndex(s, "```")]`
(`none` when the fence does not occur). -/
def cutLast3BT : List Char → Option (List Char)
  | '`' :: '`' :: '`' :: rest =>
    match cutLast3BT ('`' :: '`' :: rest) with
    | some r => some ('`' :: r)
    | none => some []
  | c :: rest => (fun r => c :: r) <$> cutLast3BT rest
  | [] => none

/-- does the text start with a ``` fence? -/
def hasFence : List Char → Bool
  | '`' :: '`' :: '`' :: _ => true
  | _ => false

/-- `stripCodeFences` (format.go). -/
def stripCodeFences (s0 : List Char) : List Char :=
  let s := trimSpace s0
  if s = [] then s
  else if hasFence s then
    let s1 := (dropThroughNL s).getD s
    (cutLast3BT s1).getD s1
  else s

/-- item loop shared shape of `parseWireItemsJSONArray` (format.go):
positivity check and conversion to `ParsedLine`. -/
def itemsToParsed : List WireItem → Except ParseErr (List ParsedLine)
  | [] => .ok []
  | it :: rest =>
    if it.Idx ≤ 0 then .error (.invalidIdxInItem it.Idx)
    else do
      let r ← itemsToParsed rest
      .ok (⟨it.Idx, it.Text⟩ :: r)

/-- `parseWireItemsJSONArray` (format.go). -/
def parseWireItemsJSONArray (s : List Char) : Except ParseErr (List ParsedLine) :=
  match unmarshalWireItems s with
  | none => .error .invalidJSONArray
  | some items => do
    let res ← itemsToParsed items
    if res = [] then .error .noTranslatedLines else .ok res

/-- Go `strings.Split(s, "\n")`. -/
def splitNL (s : List Char) : List (List Char) := s.splitOn '\n'

/-- line loop of `parseWireItemsByLines` (format.go); `lineNo` is already
1-based. -/
def parseLinesGo : Nat → List (List Char) → Except ParseErr (List ParsedLine)
  | _, [] => .ok []
  | lineNo, line :: rest =>
    let l := trimSpace line
    if l = [] then parseLinesGo (lineNo + 1) rest
    else
      match unmarshalWireItem l with
      | none => .error (.invalidJSONLine lineNo (abbreviate l AbbreviationMax))
      | some it =>
        if it.Idx ≤ 0 then .error (.invalidIdxAtLine lineNo it.Idx (abbreviate l AbbreviationMax))
        else do
          let r ← parseLinesGo (lineNo + 1) rest
          .ok (⟨it.Idx, it.Text⟩ :: r)

/-- `parseWireItemsByLines` (format.go). -/
def parseWireItemsByLines (s : List Char) : Except ParseErr (List ParsedLine) := do
  let res ← parseLinesGo 1 (splitNL s)
  if res = [] then .error .noTranslatedLines else .ok res

/-- outcome of `extractIdxAndTextBestEffort` (format.go): Go's
`(idx, text, ok, err)` quadruple collapsed to its three reachable shapes. -/
inductive SalvageOut
  | notOk
  | failed
  | okOut (idx : Int) (text : List Char)
  deriving DecidableEq, Repr

/-- find the first occurrence of `needle` and return what follows it. -/
def dropAfterSub (needle : List Char) : List Char → Option (List Char)
  | [] => none
  | s@(_ :: rest) =>
    if needle.isPrefixOf s then some (s.drop needle.length)
    else dropAfterSub needle rest

/-- Go `strings.IndexByte(s, ':')` + slice past it. -/
def dropThroughColon : List Char → Option (List Char)
  | [] => none
  | ':' :: rest => some rest
  | _ :: rest => dropThroughColon rest

/-- the text-scanning loop of `extractIdxAndTextBestEffort` (format.go):
starting right after the opening quote of the `text` value, copy
characters (escape sequences verbatim) into the repaired raw string,
escaping any `"` that is not followed — modulo whitespace — by `}` or by
`,"`; `none` when the string never terminates (including the dangling
backslash break). -/
def salvageScan : List Char → Option (List Char)
  | [] => none
  | '"' :: rest =>
    let k := skipWS rest
    match k with
    | '}' :: _ => some []
    | ',' :: k2 =>
      (match skipWS k2 with
       | '"' :: _ => some []
       | _ => (fun r => '\\' :: '"' :: r) <$> salvageScan rest)
    | _ => (fun r => '\\' :: '"' :: r) <$> salvageScan rest
  | '\\' :: rest =>
    match rest with
    | [] => none
    | c :: rest2 => (fun r => '\\' :: c :: r) <$> salvageScan rest2
  | c :: rest => (fun r => c :: r) <$> salvageScan rest

/-- `extractIdxAndTextBestEffort` (format.go). -/
def extractIdxAndTextBestEffort (obj0 : List Char) : SalvageOut :=
  let obj := trimSpace obj0
  if obj = [] then .notOk
  else
    match dropAfterSub ('"' :: 'i' :: 'd' :: 'x' :: ['"']) obj with
    | none => .notOk
    | some afterIdx =>
      match dropThroughColon afterIdx with
      | none => .failed
      | some p0 =>
        let p1 := skipWS p0
        if p1 = [] then .failed
        else
          let (neg, p2) : Bool × List Char :=
            match p1 with
            | '-' :: r => (true, r)
            | _ => (false, p1)
          let ds := p2.takeWhile isDigitCh
          if ds = [] then .failed
          else
            let parsedIdx : Int := if neg then -(digitsToNat ds : Int) else (digitsToNat ds : Int)
            match dropAfterSub ('"' :: 't' :: 'e' :: 'x' :: 't' :: ['"']) obj with
            | none => .notOk
            | some afterText =>
              match dropThroughColon afterText with
              | none => .failed
              | some q0 =>
                match skipWS q0 with
                | '"' :: q2 =>
                  (match salvageScan q2 with
                   | none => .failed
                   | some raw =>
                     match parseJSONString (raw ++ ['"']) with
                     | some (decoded, []) => .okOut parsedIdx decoded
                     | _ => .failed)
                | _ => .failed

/-- line loop of `parseWireItemsByLinesWithRepair` (format.go); carries the
running salvage counter. -/
def parseLinesRepairGo : Nat → List (List Char) → Nat → Except ParseErr (List ParsedLine × Nat)
  | _, [], salv => .ok ([], salv)
  | lineNo, line :: rest, salv =>
    let l := trimSpace line
    if l = [] then parseLinesRepairGo (lineNo + 1) rest salv
    else
      match unmarshalWireItem l with
      | some it =>
        if it.Idx ≤ 0 then .error (.invalidIdxAtLine lineNo it.Idx (abbreviate l AbbreviationMax))
        else do
          let (r, sv) ← parseLinesRepairGo (lineNo + 1) rest salv
          .ok ((⟨it.Idx, it.Text⟩ : ParsedLine) :: r, sv)
      | none =>
        match extractIdxAndTextBestEffort l with
        | .okOut idx text =>
          if idx ≤ 0 then .error (.invalidJSONLine lineNo (abbreviate l AbbreviationMax))
          else do
            let (r, sv) ← parseLinesRepairGo (lineNo + 1) rest (salv + 1)
            .ok ((⟨idx, text⟩ : ParsedLine) :: r, sv)
        | _ => .error (.invalidJSONLine lineNo (abbreviate l AbbreviationMax))

/-- `parseWireItemsByLinesWithRepair` (format.go). -/
def parseWireItemsByLinesWithRepair (s : List Char) :
    Except ParseErr (List ParsedLine × Nat) := do
  let (res, salv) ← parseLinesRepairGo 1 (splitNL s) 0
  if res = [] then .error .noTranslatedLines else .ok (res, salv)

/-- segment loop of `parseWireItemsByBraces` (format.go); `n` is the 1-based
object number. -/
def parseBracesGo : Nat → List (List Char) → Except ParseErr (List ParsedLine)
  | _, [] => .ok []
  | n, seg :: rest =>
    match unmarshalWireItem seg with
    | none => .error (.invalidJSONObject n (abbreviate seg AbbreviationMax))
    | some it =>
      if it.Idx ≤ 0 then .error (.invalidIdxInObject n it.Idx)
      else do
        let r ← parseBracesGo (n + 1) rest
        .ok ((⟨it.Idx, it.Text⟩ : ParsedLine) :: r)

/-- `parseWireItemsByBraces` (format.go). -/
def parseWireItemsByBraces (s : List Char) : Except ParseErr (List ParsedLine) :=
  let objs := extractJSONObjectSegments s
  if objs = [] then .error .noTranslatedLines
  else parseBracesGo 1 objs

/-- segment loop of `parseWireItemsByRepairingText` (format.go). -/
def parseRepairGo : Nat → List (List Char) → Except ParseErr (List ParsedLine)
  | _, [] => .ok []
  | n, seg :: rest =>
    match extractIdxAndTextBestEffort seg with
    | .failed => .error (.cannotSalvageObjectErr n (abbreviate seg AbbreviationMax))
    | .notOk => .error (.cannotSalvageObjectNotOk n (abbreviate seg AbbreviationMax))
    | .okOut idx text =>
      if idx ≤ 0 then .error (.invalidIdxInSalvaged n idx)
      else
        match unmarshalWireItem (encodeWireItem idx text) with
        | none => .error (.cannotReunmarshalSalvaged n)
        | some it => do
          let r ← parseRepairGo (n + 1) rest
          .ok ((⟨it.Idx, it.Text⟩ : ParsedLine) :: r)

/-- `parseWireItemsByRepairingText` (format.go). -/
def parseWireItemsByRepairingText (s : List Char) : Except ParseErr (List ParsedLine) :=
  let segs := extractJSONObjectSegments s
  if segs = [] then .error .noTranslatedLines
  else do
    let res ← parseRepairGo 1 segs
    if res = [] then .error .noTranslatedLines else .ok res

/-- `ParseTranslatedLines` (format.go): CRLF normalisation, fence
stripping, trimming, then the tier chain exactly as the source sequences
it.  The very last arm re-runs the strict line parser purely for its
error, as the source does (the `.ok` sub-arm mirrors Go's unreachable
`return nil, err` with a nil `err`). -/
def ParseTranslatedLines (s : List Char) : Except ParseErr (List ParsedLine) :=
  let out := trimSpace (stripCodeFences (replaceCRLF s))
  if out = [] then .error .emptyOutput
  else if out.head? = some '[' then parseWireItemsJSONArray out
  else
    match parseWireItemsByBraces out with
    | .ok res => .ok res
    | .error _ =>
      match parseWireItemsByLines out with
      | .ok res => .ok res
      | .error _ =>
        match parseWireItemsByLinesWithRepair out with
        | .ok (res, _) => .ok res
        | .error _ =>
          match parseWireItemsByRepairingText out with
          | .ok res => .ok res
          | .error _ =>
            match parseWireItemsByLines out with
            | .ok _ => .ok []
            | .error e => .error e

/-- first success in an ordered list of tier results, else `fallback` —
the "ordered fallback tiers, returning the first that succeeds" shape in
which the specification describes the decoder. -/
def firstOk (rs : List (Except ParseErr (List ParsedLine)))
    (fallback : Except ParseErr (List ParsedLine)) : Except ParseErr (List ParsedLine) :=
  match rs with
  | [] => fallback
  | .ok v :: _ => .ok v
  | .error _ :: rest => firstOk rest fallback

/-- the decoder as the specification literally states it: every tier —
including the JSON-array tier, applicable only when the trimmed text
starts with `[` — participates in the first-success chain, and when every
tier fails the strict line-by-line diagnostic error is returned. -/
def decodeTiersClaimed (s : List Char) : Except ParseErr (List ParsedLine) :=
  let out := trimSpace (stripCodeFences (replaceCRLF s))
  if out = [] then .error .emptyOutput
  else
    firstOk
      ((if out.head? = some '[' then [parseWireItemsJSONArray out] else []) ++
        [parseWireItemsByBraces out,
         parseWireItemsByLines out,
         (parseWireItemsByLinesWithRepair out).map Prod.fst,
         parseWireItemsByRepairingText out])
      (match parseWireItemsByLines out with
       | .error e => .error e
       | .ok _ => .ok [])

/-- the decoder as the source actually behaves: when the trimmed text
starts with `[` the JSON-array tier's result — success or failure — is
final; otherwise the remaining tiers run as a first-success chain with
the strict line-parser error as the fallback. -/
def decodeTiersAmended (s : List Char) : Except ParseErr (List ParsedLine) :=
  let out := trimSpace (stripCodeFences (replaceCRLF s))
  if out = [] then .error .emptyOutput
  else if out.head? = some '[' then parseWireItemsJSONArray out
  else
    firstOk
      [parseWireItemsByBraces out,
       parseWireItemsByLines out,
       (parseWireItemsByLinesWithRepair out).map Prod.fst,
       parseWireItemsByRepairingText out]
      (match parseWireItemsByLines out with
       | .error e => .error e
       | .ok _ => .ok [])

/-! Batch building and validation (internal/fs/fs.go). -/

/-- the fields of `srt.Subtitle` the translation pipeline reads. -/
structure Subtitle where
  Idx : Int
  Text : List Char
  deriving DecidableEq, Repr

/-- `batch` (fs.go). -/
structure Batch where
  idxs : List Int
  texts : List (List Char)
  deriving DecidableEq, Repr

/-- byte length of a rune string, exactly Go's `len(string)`. -/
def byteLen (s : List Char) : Nat :=
  (s.map Char.utf8Size).sum

/-- the scanning loop of `buildBatch` (fs.go): `first` tells whether the
current record is the one the batch started with (the `i > start` guard);
`chars` is the running size; returns the batch contents and the remaining
records (`next` in the source).  `FormatOneForTranslation` cannot fail in
the model (Go's `json.Marshal` on a `wireItem` never errors), so the error
path of the source is degenerate. -/
def buildBatchGo (maxChars : Int) : List Subtitle → Int → Bool → List Int × List (List Char) × List Subtitle
  | [], _, _ => ([], [], [])
  | sub :: rest, chars, first =>
    let enc := FormatOneForTranslation sub.Idx sub.Text
    let lineLen : Int := byteLen enc + 1
    if ¬first ∧ chars + lineLen > maxChars then ([], [], sub :: rest)
    else
      let (is, ts, rem) := buildBatchGo maxChars rest (chars + lineLen) false
      (sub.Idx :: is, sub.Text :: ts, rem)

/-- `buildBatches` (fs.go), fuelled by the record count (each `buildBatch`
consumes at least the record it starts with, so `length` fuel suffices and
the kernel can evaluate the definition). -/
def buildBatchesGo (maxChars : Int) : Nat → List Subtitle → List Batch
  | 0, _ => []
  | _, [] => []
  | fuel + 1, subs@(_ :: _) =>
    let (is, ts, rem) := buildBatchGo maxChars subs 0 true
    ⟨is, ts⟩ :: buildBatchesGo maxChars fuel rem

/-- `buildBatches` (fs.go). -/
def buildBatches (subs : List Subtitle) (maxChars : Int) : List Batch :=
  buildBatchesGo maxChars subs.length subs

/-- the size `buildBatch` accounts for one record: the exact serialized
wire item plus one separator byte (`lineLen` in fs.go). -/
def wireLineLen (idx : Int) (text : List Char) : Int :=
  (byteLen (FormatOneForTranslation idx text) : Int) + 1

/-- total accounted size of a batch: serialized length of each item plus
one separator byte per item. -/
def batchWireSize (b : Batch) : Int :=
  ((b.idxs.zip b.texts).map (fun p => wireLineLen p.1 p.2)).sum

/-- validation errors of `validateParsedBatch` (fs.go). -/
inductive ValidateErr
  | sizeMismatch (expected got : Nat)
  | unexpectedIdx (idx : Int)
  | duplicateIdx (idx : Int)
  | missingIdxs (count : Int)
  deriving DecidableEq, Repr

/-- the entry loop of `validateParsedBatch` (fs.go): `expected` membership
is modelled by membership in `idxs` (the map the caller builds from them),
`seen` is the accumulated key set. -/
def validateGo (idxs : List Int) : List ParsedLine → List Int → Except ValidateErr (List Int)
  | [], seen => .ok seen
  | pl :: rest, seen =>
    if pl.Idx ∈ idxs then
      if pl.Idx ∈ seen then .error (.duplicateIdx pl.Idx)
      else validateGo idxs rest (pl.Idx :: seen)
    else .error (.unexpectedIdx pl.Idx)

/-- `validateParsedBatch` (fs.go): `len(expected)` is the number of
distinct expected ids (`idxs.dedup.length`), `len(seen)` the number of
accumulated distinct output ids. -/
def validateParsedBatch (idxs : List Int) (parsed : List ParsedLine) :
    Except ValidateErr (List ParsedLine) :=
  if parsed.length ≠ idxs.length then .error (.sizeMismatch idxs.length parsed.length)
  else do
    let seen ← validateGo idxs parsed []
    if seen.length ≠ idxs.dedup.length then
      .error (.missingIdxs ((idxs.dedup.length : Int) - (seen.length : Int)))
    else .ok parsed

/-! Run options and their validation (internal/fs/fs.go). -/

/-- `Options` (fs.go), restricted to the fields `validateAndDefaultOptions`
reads or writes (`RPS`, `DryRun`, `BaseURL`, `APIKey` and the language
fields pass through untouched and are omitted). -/
structure Options where
  InputPath : String
  OutputPath : String
  WorkDir : String
  TargetLanguage : String
  Model : String
  MaxBatchChars : Int
  MaxWorkers : Int
  RetryMaxAttempts : Int
  RetryParseMaxAttempts : Int
  RequestTimeout : Int
  deriving DecidableEq, Repr

/-- configuration errors of `validateAndDefaultOptions` (fs.go). -/
inductive ConfigErr
  | inputRequired
  | workdirRequired
  | targetLanguageRequired
  | modelRequired
  | outputRequired
  deriving DecidableEq, Repr

/-- `DefaultMaxBatchChars` (fs.go). -/
def DefaultMaxBatchChars : Int := 7000

/-- `DefaultMaxWorkers` (fs.go). -/
def DefaultMaxWorkers : Int := 2

/-- the budget-defaulting mutations in the middle of
`validateAndDefaultOptions` (fs.go): non-positive budgets get their
defaults, a negative timeout is disabled. -/
def applyBudgetDefaults (opts : Options) : Options :=
  let opts := if opts.MaxBatchChars ≤ 0 then { opts with MaxBatchChars := DefaultMaxBatchChars } else opts
  let opts := if opts.MaxWorkers ≤ 0 then { opts with MaxWorkers := DefaultMaxWorkers } else opts
  let opts := if opts.RetryMaxAttempts ≤ 0 then { opts with RetryMaxAttempts := 1 } else opts
  let opts := if opts.RetryParseMaxAttempts ≤ 0 then { opts with RetryParseMaxAttempts := 1 } else opts
  if opts.RequestTimeout < 0 then { opts with RequestTimeout := 0 } else opts

/-- `validateAndDefaultOptions` (fs.go): required identifiers error out,
non-positive budgets are replaced by defaults, a negative request timeout
is disabled.  `Run` calls this first and returns its error unchanged
before reading input, batching or issuing any request. -/
def validateAndDefaultOptions (opts : Options) : Except ConfigErr Options :=
  if opts.InputPath = "" then .error .inputRequired
  else if opts.WorkDir = "" then .error .workdirRequired
  else if opts.TargetLanguage = "" then .error .targetLanguageRequired
  else if opts.Model = "" then .error .modelRequired
  else
    let opts := applyBudgetDefaults opts
    if opts.OutputPath = "" then .error .outputRequired
    else .ok opts

/-- `applyBudgetDefaults` never touches the output path. -/
@[simp] theorem applyBudgetDefaults_OutputPath (o : Options) :
    (applyBudgetDefaults o).OutputPath = o.OutputPath := by
  unfold applyBudgetDefaults
  dsimp only
  split_ifs <;> rfl

/-- `applyBudgetDefaults` leaves every budget positive (and the timeout
non-negative). -/
theorem applyBudgetDefaults_pos (o : Options) :
    0 < (applyBudgetDefaults o).MaxBatchChars ∧ 0 < (applyBudgetDefaults o).MaxWorkers ∧
    0 < (applyBudgetDefaults o).RetryMaxAttempts ∧ 0 < (applyBudgetDefaults o).RetryParseMaxAttempts ∧
    0 ≤ (applyBudgetDefaults o).RequestTimeout := by
  unfold applyBudgetDefaults
  dsimp only
  split_ifs <;> refine ⟨?_, ?_, ?_, ?_, ?_⟩ <;>
    simp_all [DefaultMaxBatchChars, DefaultMaxWorkers]

/-! Transport retry, backoff and credential rotation
(internal/translate/http_helpers.go).  Durations are modelled as exact
integer nanoseconds (`time.Duration`); the float64 arithmetic of
`computeBackoff` is modelled exactly over `ℚ` with the final
float-to-Duration conversion as the floor (the operands are non-negative,
so Go's truncation toward zero is the floor); the random draw of
`jitterFloat64` becomes an explicit parameter `u ∈ [0,1)`. -/

/-- `RetryOptions` (http_helpers.go). -/
structure RetryOptions where
  MaxAttempts : Int
  BaseDelay : Int
  MaxDelay : Int
  Jitter : ℚ
  deriving DecidableEq, Repr

/-- one `time.Millisecond` in nanoseconds. -/
def msec : Int := 1000000

/-- one `time.Second` in nanoseconds. -/
def sec : Int := 1000000000

/-- `DefaultRetryOptions` (http_helpers.go). -/
def DefaultRetryOptions : RetryOptions :=
  { MaxAttempts := 5, BaseDelay := 500 * msec, MaxDelay := 10 * sec, Jitter := 1 / 5 }

/-- `computeBackoff` (http_helpers.go): sanitise the options, take
`base * 2^(attempt-1)` capped at `MaxDelay` and floored at 0, then — when
jitter is enabled — perturb by `1 + (2u-1)*jitter` and clamp again. -/
def computeBackoff (attempt0 : Int) (o : RetryOptions) (u : ℚ) : Int :=
  let attempt := if attempt0 < 1 then 1 else attempt0
  let base := if o.BaseDelay ≤ 0 then 500 * msec else o.BaseDelay
  let maxD := if o.MaxDelay ≤ 0 then 10 * sec else o.MaxDelay
  let jitter := if o.Jitter < 0 then 0 else if o.Jitter > 1 then 1 else o.Jitter
  let d := base * 2 ^ (attempt - 1).toNat
  let d := if d > maxD then maxD else d
  let d := if d < 0 then 0 else d
  if jitter > 0 then
    let j := (u * 2 - 1) * jitter
    let d' : Int := Rat.floor ((d : ℚ) * (1 + j))
    let d' := if d' < 0 then 0 else d'
    if d' > maxD then maxD else d'
  else d

/-- Go `strconv.Atoi`. -/
def goAtoi (s : List Char) : Option Int :=
  let (neg, s1) : Bool × List Char :=
    match s with
    | '+' :: r => (false, r)
    | '-' :: r => (true, r)
    | _ => (false, s)
  if s1 = [] then none
  else if s1.all isDigitCh then
    some (if neg then -(digitsToNat s1 : Int) else (digitsToNat s1 : Int))
  else none

/-- `retryDelayFromHeader` (http_helpers.go): the `Retry-After` header
value (`none` when the header is absent, which Go's `Header.Get` renders
as the empty string) parsed as non-negative integer seconds; anything
else, including absence, yields 0. -/
def retryDelayFromHeader (h : Option String) : Int :=
  let ra := trimSpace (h.getD "").data
  if ra = [] then 0
  else
    match goAtoi ra with
    | none => 0
    | some secs => if secs < 0 then 0 else secs * sec

/-- the delay actually slept by `requestWithRetry` (http_helpers.go)
before the next attempt: the decision's delay when positive, otherwise the
computed backoff — a decision delay of zero (or less) is indistinguishable
from no delay at all. -/
def retrySleepDelay (decisionDelay : Int) (attempt : Int) (o : RetryOptions) (u : ℚ) : Int :=
  if decisionDelay ≤ 0 then computeBackoff attempt o u else decisionDelay

/-- `isRetryableHTTPStatus` (http_helpers.go). -/
def isRetryableHTTPStatus (code : Int) : Bool :=
  code == 429 || (decide (500 ≤ code) && decide (code ≤ 599))

/-- `isRejectedHTTPStatus` (http_helpers.go). -/
def isRejectedHTTPStatus (code : Int) : Bool :=
  code == 429 || code == 401 || code == 403

/-- `(*OpenAIClient).apiKeys` (http_helpers.go): comma-separated keys,
trimmed, empties dropped. -/
def apiKeysOf (raw0 : String) : List (List Char) :=
  let raw := trimSpace raw0.data
  if raw = [] then []
  else ((raw.splitOn ',').map trimSpace).filter (fun k => !k.isEmpty)

/-- `(*OpenAIClient).pickAPIKey` (http_helpers.go); `rr` is the current
value of the uint32 round-robin counter. -/
def pickAPIKey (keys : List (List Char)) (rr : Nat) (rotated : Bool) : List Char × Int :=
  if keys.length = 0 then ([], -1)
  else if keys.length = 1 then (keys.headD [], 0)
  else
    let idx := rr % keys.length
    let idx := if rotated then (idx + 1) % keys.length else idx
    (keys.getD idx [], idx)

/-- `(*OpenAIClient).advanceAPIKeyRR` (http_helpers.go): uint32 increment. -/
def advanceRR (rr : Nat) : Nat := (rr + 1) % 4294967296

/-- observable outcome of a `TranslateBatch` run against a scripted
server: the Authorization credentials of the outbound requests in order,
the final round-robin counter, and whether the call succeeded. -/
structure AttemptTrace where
  used : List (List Char)
  finalRR : Nat
  success : Bool
  deriving DecidableEq, Repr

/-- the attempt loop of `TranslateBatch` run through `requestWithRetry`
(http_helpers.go) against a server scripted to answer the n-th request
with the n-th HTTP status of `statuses` (2xx responses carry valid
content; network errors are not scripted).  `fuel` is the number of
attempts still allowed (`MaxAttempts - attempt + 1`); `rotated` is the
closure variable `rotatedOnReject`. -/
def translateBatchGo (keys : List (List Char)) : Nat → Nat → Bool → List Int → List (List Char) → AttemptTrace
  | 0, rr, _, _, used => ⟨used.reverse, rr, false⟩
  | _ + 1, rr, _, [], used => ⟨used.reverse, rr, false⟩
  | fuel + 1, rr, rotated, st :: stRest, used =>
    let key := (pickAPIKey keys rr rotated).1
    let used := key :: used
    if 200 ≤ st ∧ st < 300 then
      ⟨used.reverse, if keys.length > 1 then advanceRR rr else rr, true⟩
    else
      let rotatedNew := isRejectedHTTPStatus st && decide (keys.length > 1)
      let retry := rotatedNew || isRetryableHTTPStatus st
      if retry = true ∧ 0 < fuel then translateBatchGo keys fuel rr rotatedNew stRest used
      else ⟨used.reverse, rr, false⟩

/-- `TranslateBatch` (http_helpers.go) restricted to its credential-
selection behaviour: the comma-separated credential string is split once,
`rotatedOnReject` starts false, and `requestWithRetry` sanitises a
non-positive `MaxAttempts` to 1. -/
def TranslateBatchTrace (apiKey : String) (rr0 : Nat) (statuses : List Int) (maxAttempts : Nat) : AttemptTrace :=
  let keys := apiKeysOf apiKey
  translateBatchGo keys (if maxAttempts = 0 then 1 else maxAttempts) rr0 false statuses []

/-! Theorems. -/

/-- C5: `ParseTranslatedLines` applied to the literal one-line input
`{"idx":119,"text":"♪No diré "gracias", te sonrojarías\ny lo ignorarías riendo♪"}`
(invalid JSON because of the unescaped inner quotes) succeeds with exactly
one `ParsedLine` of `Idx = 119` whose text keeps the inner quotes
literally and has the `\n` escape decoded to a real newline. -/
theorem c5_salvages_unescaped_quotes :
    ParseTranslatedLines
        (("\x7b\"idx\":119,\"text\":\"♪No diré \"gracias\", te sonrojarías\\ny lo ignorarías riendo♪\"\x7d").data) =
      .ok [⟨119, ("♪No diré \"gracias\", te sonrojarías\ny lo ignorarías riendo♪").data⟩] := by
  set_option maxRecDepth 200000 in decide

unseal Rat.mul Rat.add Rat.sub Rat.inv in
/-- C6 (counterexample): a `Retry-After: 0` header does not make the next
retry immediate — `retryDelayFromHeader` renders it as 0, which
`requestWithRetry` treats as "no server delay" and replaces with the
computed backoff (500ms at attempt 1 under the default options with a
middle jitter draw), so the slept delay is not zero. -/
theorem c6_retry_after_zero_counterexample :
    retryDelayFromHeader (some "0") = 0 ∧
    retrySleepDelay (retryDelayFromHeader (some "0")) 1 DefaultRetryOptions (1 / 2) = 500000000 := by
  constructor
  · decide
  · decide

/-- C6 (amended): a positive server-supplied `Retry-After` duration
overrides the computed backoff for the attempt, but `Retry-After: 0` is
indistinguishable from an absent header — the delay falls back to the
computed backoff, so the retry is not immediate (unless the backoff
itself is zero). -/
theorem c6_retry_after_override_amended :
    (∀ (h : Option String) (attempt : Int) (o : RetryOptions) (u : ℚ),
        0 < retryDelayFromHeader h →
        retrySleepDelay (retryDelayFromHeader h) attempt o u = retryDelayFromHeader h) ∧
    (∀ (attempt : Int) (o : RetryOptions) (u : ℚ),
        retrySleepDelay (retryDelayFromHeader (some "0")) attempt o u = computeBackoff attempt o u) := by
  constructor
  · intro h attempt o u hpos
    unfold retrySleepDelay
    rw [if_neg (by omega)]
  · intro attempt o u
    have h0 : retryDelayFromHeader (some "0") = 0 := by decide
    rw [h0]
    unfold retrySleepDelay
    rw [if_pos (by omega)]

/-- C6 (witness): a `Retry-After: 7` header is used verbatim. -/
theorem c6_retry_after_witness :
    retrySleepDelay (retryDelayFromHeader (some "7")) 1 DefaultRetryOptions (1 / 2) =
      retryDelayFromHeader (some "7") :=
  c6_retry_after_override_amended.1 (some "7") 1 DefaultRetryOptions (1 / 2) (by decide)

/-- C7: for every attempt ≥ 1, options with positive `BaseDelay` and
`MaxDelay` and jitter in `[0,1]`, and every jitter draw `u`,
`computeBackoff` returns `min(maxDelay, baseDelay * 2^(attempt-1))`
perturbed by the factor `1 + (2u-1)*jitter` (floored to a whole
nanosecond, Go's float-to-Duration conversion) and clamped to
`[0, maxDelay]`; in particular the result is never negative and never
exceeds `MaxDelay`. -/
theorem c7_compute_backoff_formula_and_bounds
    (attempt : Int) (o : RetryOptions) (u : ℚ)
    (hatt : 1 ≤ attempt) (hbase : 0 < o.BaseDelay) (hmax : 0 < o.MaxDelay)
    (hj0 : 0 ≤ o.Jitter) (hj1 : o.Jitter ≤ 1) :
    computeBackoff attempt o u =
      max 0 (min o.MaxDelay
        (Rat.floor (((min o.MaxDelay (o.BaseDelay * 2 ^ (attempt - 1).toNat) : Int) : ℚ) *
          (1 + (u * 2 - 1) * o.Jitter)))) ∧
    0 ≤ computeBackoff attempt o u ∧ computeBackoff attempt o u ≤ o.MaxDelay := by
  have hmain : computeBackoff attempt o u =
      max 0 (min o.MaxDelay
        (Rat.floor (((min o.MaxDelay (o.BaseDelay * 2 ^ (attempt - 1).toNat) : Int) : ℚ) *
          (1 + (u * 2 - 1) * o.Jitter)))) := by
    unfold computeBackoff
    dsimp only
    rw [if_neg (show ¬ attempt < 1 by omega)]
    rw [if_neg (show ¬ o.BaseDelay ≤ 0 by omega)]
    rw [if_neg (show ¬ o.MaxDelay ≤ 0 by omega)]
    rw [if_neg (not_lt.mpr hj0), if_neg (not_lt.mpr hj1)]
    have hd1 : 0 < o.BaseDelay * 2 ^ (attempt - 1).toNat :=
      mul_pos hbase (pow_pos (by omega) _)
    set d1 := o.BaseDelay * 2 ^ (attempt - 1).toNat with hd1def
    have hstep : (if d1 > o.MaxDelay then o.MaxDelay else d1) = min o.MaxDelay d1 := by
      rcases le_or_lt d1 o.MaxDelay with h | h
      · rw [if_neg (by omega), min_eq_right h]
      · rw [if_pos h, min_eq_left h.le]
    rw [hstep]
    have hminpos : 0 < min o.MaxDelay d1 := lt_min hmax hd1
    rw [if_neg (show ¬ min o.MaxDelay d1 < 0 by omega)]
    by_cases hj : 0 < o.Jitter
    · rw [if_pos hj]
      set fl := Rat.floor (((min o.MaxDelay d1 : Int) : ℚ) * (1 + (u * 2 - 1) * o.Jitter)) with hfl
      split_ifs <;> omega
    · rw [if_neg hj]
      have hjz : o.Jitter = 0 := le_antisymm (not_lt.mp hj) hj0
      rw [hjz]
      have hq : ((min o.MaxDelay d1 : Int) : ℚ) * (1 + (u * 2 - 1) * 0) =
          ((min o.MaxDelay d1 : Int) : ℚ) := by ring
      rw [hq, show ∀ n : Int, Rat.floor ((n : ℚ)) = n from fun n => by
        rw [show Rat.floor ((n : ℚ)) = ⌊(n : ℚ)⌋ from rfl]; exact Int.floor_intCast n]
      omega
  exact ⟨hmain, by rw [hmain]; omega, by rw [hmain]; omega⟩

unseal Rat.mul Rat.add Rat.sub Rat.inv in
/-- C7 (witness): the bounds at attempt 3 under the default options and a
concrete jitter draw. -/
theorem c7_backoff_witness :
    0 ≤ computeBackoff 3 DefaultRetryOptions (1 / 4) ∧
    computeBackoff 3 DefaultRetryOptions (1 / 4) ≤ DefaultRetryOptions.MaxDelay :=
  (c7_compute_backoff_formula_and_bounds 3 DefaultRetryOptions (1 / 4)
    (by decide) (by decide) (by decide) (by decide) (by decide)).2

/-- a fully valid option set used as the base point for configuration
tests. -/
def okOptions : Options :=
  { InputPath := "in.srt", OutputPath := "out.srt", WorkDir := "wd",
    TargetLanguage := "es", Model := "gpt-test", MaxBatchChars := 7000,
    MaxWorkers := 2, RetryMaxAttempts := 5, RetryParseMaxAttempts := 2,
    RequestTimeout := 0 }

/-- C9 (counterexample): a configuration with non-positive budgets
(`MaxBatchChars = 0`, `MaxWorkers = -2`) is not rejected —
`validateAndDefaultOptions` silently replaces both by their defaults and
succeeds, so `Run` proceeds instead of failing fast. -/
theorem c9_nonpositive_budget_counterexample :
    validateAndDefaultOptions { okOptions with MaxBatchChars := 0, MaxWorkers := -2 } =
      .ok okOptions := by decide

/-- C9 (amended): `Run`'s configuration gate (`validateAndDefaultOptions`,
whose error `Run` returns before reading input, batching or issuing any
request) fails exactly when a required identifier — input path, work
directory, target language, model or output path — is missing; a
non-positive budget is not a configuration error: it is replaced by its
default, and every accepted configuration has positive budgets. -/
theorem c9_config_gate_amended :
    (∀ o : Options, (∃ e, validateAndDefaultOptions o = .error e) ↔
        o.InputPath = "" ∨ o.WorkDir = "" ∨ o.TargetLanguage = "" ∨
        o.Model = "" ∨ o.OutputPath = "") ∧
    (∀ o o' : Options, validateAndDefaultOptions o = .ok o' →
        0 < o'.MaxBatchChars ∧ 0 < o'.MaxWorkers ∧ 0 < o'.RetryMaxAttempts ∧
        0 < o'.RetryParseMaxAttempts ∧ 0 ≤ o'.RequestTimeout) := by
  constructor
  · intro o
    unfold validateAndDefaultOptions
    dsimp only
    split_ifs with h1 h2 h3 h4 h5 <;>
      simp_all [applyBudgetDefaults_OutputPath]
  · intro o o' h
    unfold validateAndDefaultOptions at h
    dsimp only at h
    split_ifs at h
    cases h
    exact applyBudgetDefaults_pos o

/-- C9 (witness): the valid base configuration is accepted with its
positive budgets intact. -/
theorem c9_config_witness :
    0 < okOptions.MaxBatchChars ∧ 0 < okOptions.MaxWorkers ∧
    0 < okOptions.RetryMaxAttempts ∧ 0 < okOptions.RetryParseMaxAttempts ∧
    0 ≤ okOptions.RequestTimeout :=
  c9_config_gate_amended.2 okOptions okOptions (by decide)

/-- C8: with exactly two credentials configured (comma-separated) and a
server answering the first attempt with 429 and the second with 200, the
two outbound requests carry two different Authorization credentials — and
the rotation happens only past rejection: with a 500 (retryable but not a
rejection) followed by 200, both requests carry the same credential.
Holds for every starting value of the round-robin counter. -/
theorem c8_two_keys_rotate_past_rejection (rr0 : Nat) :
    ((TranslateBatchTrace "key_1,key_2" rr0 [429, 200] 2).used.getD 0 [] ≠
      (TranslateBatchTrace "key_1,key_2" rr0 [429, 200] 2).used.getD 1 []) ∧
    (TranslateBatchTrace "key_1,key_2" rr0 [429, 200] 2).used.length = 2 ∧
    (TranslateBatchTrace "key_1,key_2" rr0 [429, 200] 2).success = true ∧
    ((TranslateBatchTrace "key_1,key_2" rr0 [500, 200] 2).used.getD 0 [] =
      (TranslateBatchTrace "key_1,key_2" rr0 [500, 200] 2).used.getD 1 []) := by
  have hkeys : apiKeysOf "key_1,key_2" = ["key_1".data, "key_2".data] := by decide
  rcases Nat.mod_two_eq_zero_or_one rr0 with h | h <;>
    simp only [TranslateBatchTrace, hkeys, translateBatchGo, pickAPIKey, advanceRR,
      isRejectedHTTPStatus, isRetryableHTTPStatus, List.length_cons, List.length_nil, h] <;>
    norm_num <;> decide

/-- helper for C10: with at most one credential, the attempt loop of
`TranslateBatch` never changes the round-robin counter and every request
uses the head credential (or the empty bearer when none is configured). -/
theorem translateBatchGo_single_key (keys : List (List Char)) (hk : keys.length ≤ 1) (rr : Nat) :
    ∀ (fuel : Nat) (statuses : List Int) (rotated : Bool) (used : List (List Char)),
      (translateBatchGo keys fuel rr rotated statuses used).finalRR = rr ∧
      ∀ k ∈ (translateBatchGo keys fuel rr rotated statuses used).used,
        k ∈ used ∨ k = keys.headD [] := by
  have hkey : ∀ (r : Nat) (b : Bool), (pickAPIKey keys r b).1 = keys.headD [] := by
    intro r b
    rcases keys with _ | ⟨a, _ | ⟨c, t⟩⟩
    · rfl
    · rfl
    · simp at hk
  have hgt : ¬ (1 < keys.length) := by omega
  intro fuel
  induction fuel with
  | zero =>
    intro statuses rotated used
    refine ⟨rfl, fun k hkm => Or.inl ?_⟩
    simpa [translateBatchGo] using hkm
  | succ fuel ih =>
    intro statuses rotated used
    cases statuses with
    | nil =>
      refine ⟨rfl, fun k hkm => Or.inl ?_⟩
      simpa [translateBatchGo] using hkm
    | cons st rest =>
      simp only [translateBatchGo, hkey]
      split_ifs with h1 h2
      · refine ⟨by simp [hgt], fun k hkm => ?_⟩
        simp only [List.mem_reverse, List.mem_cons] at hkm
        rcases hkm with h | h
        · exact Or.inr h
        · exact Or.inl h
      · have := ih rest (isRejectedHTTPStatus st && decide (keys.length > 1))
          (keys.headD [] :: used)
        refine ⟨this.1, fun k hkm => ?_⟩
        rcases this.2 k hkm with h | h
        · rcases List.mem_cons.mp h with h' | h'
          · exact Or.inr h'
          · exact Or.inl h'
        · exact Or.inr h
      · refine ⟨rfl, fun k hkm => ?_⟩
        simp only [List.mem_reverse, List.mem_cons] at hkm
        rcases hkm with h | h
        · exact Or.inr h
        · exact Or.inl h

/-- C10: when the credential string yields at most one key, every attempt
of `TranslateBatch` sends the same credential and the round-robin counter
is never advanced — neither on rejection nor on success (rotation and
advancement are both guarded by `len(keys) > 1`). -/
theorem c10_single_credential_frame (apiKey : String)
    (hk : (apiKeysOf apiKey).length ≤ 1)
    (rr0 : Nat) (statuses : List Int) (maxAttempts : Nat) :
    (TranslateBatchTrace apiKey rr0 statuses maxAttempts).finalRR = rr0 ∧
    ∀ k ∈ (TranslateBatchTrace apiKey rr0 statuses maxAttempts).used,
      k = (apiKeysOf apiKey).headD [] := by
  have h := translateBatchGo_single_key (apiKeysOf apiKey) hk rr0
    (if maxAttempts = 0 then 1 else maxAttempts) statuses false []
  exact ⟨h.1, fun k hkm => (h.2 k hkm).resolve_left (by simp)⟩

/-- C10 (witness): one credential, a rejection, a retryable failure and a
success — the counter stays at 7 and both checks evaluate. -/
theorem c10_single_credential_witness :
    (TranslateBatchTrace "solo" 7 [429, 500, 200] 5).finalRR = 7 :=
  (c10_single_credential_frame "solo" (by decide) 7 [429, 500, 200] 5).1

/-- `Except.bind` on a success, as a rewrite rule for the do-blocks of the
embedded functions. -/
theorem exceptBind_ok {α β ε : Type} (a : α) (f : α → Except ε β) :
    ((Except.ok a : Except ε α) >>= f) = f a := rfl

/-- `Except.bind` on an error. -/
theorem exceptBind_error {α β ε : Type} (e : ε) (f : α → Except ε β) :
    ((Except.error e : Except ε α) >>= f) = (Except.error e : Except ε β) := rfl

/-- the entry loop of `validateParsedBatch` succeeds exactly when every
output id is expected, none repeats, and none was already seen; the
returned key set is the reversed output ids on top of `seen`. -/
theorem validateGo_ok_iff (idxs : List Int) :
    ∀ (parsed : List ParsedLine) (seen res : List Int),
      validateGo idxs parsed seen = .ok res ↔
        (res = (parsed.map ParsedLine.Idx).reverse ++ seen ∧
         (parsed.map ParsedLine.Idx).Nodup ∧
         ∀ a ∈ parsed.map ParsedLine.Idx, a ∈ idxs ∧ a ∉ seen) := by
  intro parsed
  induction parsed with
  | nil =>
    intro seen res
    simp [validateGo, eq_comm]
  | cons pl rest ih =>
    intro seen res
    simp only [validateGo, List.map_cons]
    by_cases h1 : pl.Idx ∈ idxs
    · rw [if_pos h1]
      by_cases h2 : pl.Idx ∈ seen
      · rw [if_pos h2]
        constructor
        · intro h; exact absurd h (by simp)
        · rintro ⟨-, -, hall⟩
          exact absurd ((hall pl.Idx (List.mem_cons_self _ _)).2) (by simp [h2])
      · rw [if_neg h2, ih (pl.Idx :: seen) res]
        constructor
        · rintro ⟨hres, hnd, hall⟩
          refine ⟨by rw [hres]; simp, ?_, ?_⟩
          · rw [List.nodup_cons]
            exact ⟨fun hmem => ((hall _ hmem).2 (List.mem_cons_self _ _)).elim, hnd⟩
          · intro a ha
            rcases List.mem_cons.mp ha with rfl | ha'
            · exact ⟨h1, h2⟩
            · have := hall a ha'
              exact ⟨this.1, fun hm => this.2 (List.mem_cons_of_mem _ hm)⟩
        · rintro ⟨hres, hnd, hall⟩
          rw [List.nodup_cons] at hnd
          refine ⟨by rw [hres]; simp, hnd.2, ?_⟩
          intro a ha
          refine ⟨(hall a (List.mem_cons_of_mem _ ha)).1, ?_⟩
          intro hm
          rcases List.mem_cons.mp hm with rfl | hm'
          · exact hnd.1 ha
          · exact (hall a (List.mem_cons_of_mem _ ha)).2 hm'
    · rw [if_neg h1]
      constructor
      · intro h; exact absurd h (by simp)
      · rintro ⟨-, -, hall⟩
        exact absurd (hall pl.Idx (List.mem_cons_self _ _)).1 h1

/-- C2: for a batch with distinct expected ids, `validateParsedBatch`
accepts a decoded output — returning the parsed lines unchanged — exactly
when the output ids are a permutation of the expected ids (the expected
set, each exactly once, in any order); every count mismatch, extraneous
id, duplicate id or missing id is rejected. -/
theorem c2_validator_accepts_exactly_expected_sets
    (idxs : List Int) (hnd : idxs.Nodup) (parsed : List ParsedLine) :
    validateParsedBatch idxs parsed = .ok parsed ↔
      (parsed.map ParsedLine.Idx).Perm idxs := by
  unfold validateParsedBatch
  by_cases hlen : parsed.length ≠ idxs.length
  · rw [if_pos hlen]
    constructor
    · intro h; exact absurd h (by simp)
    · intro hperm
      exact absurd (by simpa using hperm.length_eq) hlen
  · rw [if_neg hlen]
    push_neg at hlen
    have hded : idxs.dedup = idxs := List.dedup_eq_self.mpr hnd
    cases hgo : validateGo idxs parsed [] with
    | error e =>
      rw [exceptBind_error]
      constructor
      · intro h; exact Except.noConfusion h
      · intro hperm
        have hok : validateGo idxs parsed [] =
            .ok ((parsed.map ParsedLine.Idx).reverse ++ []) := by
          rw [validateGo_ok_iff]
          refine ⟨rfl, hperm.nodup_iff.mpr hnd, fun a ha => ⟨hperm.mem_iff.mp ha, by simp⟩⟩
        rw [hgo] at hok
        exact absurd hok (by simp)
    | ok seen =>
      have hiff := (validateGo_ok_iff idxs parsed [] seen).mp hgo
      have hslen : seen.length = parsed.length := by
        rw [hiff.1]; simp
      rw [exceptBind_ok, hded, if_neg (by omega : ¬ seen.length ≠ idxs.length)]
      constructor
      · rintro -
        have hsub : (parsed.map ParsedLine.Idx).Subperm idxs :=
          List.subperm_of_subset hiff.2.1 (fun a ha => (hiff.2.2 a ha).1)
        exact hsub.perm_of_length_le (by simpa using hlen.symm.le)
      · rintro -; rfl

/-- C2 (witness): three expected ids returned complete but out of order
are accepted unchanged. -/
theorem c2_validator_witness :
    validateParsedBatch [1, 2, 3]
        [⟨2, ['b']⟩, ⟨3, ['c']⟩, ⟨1, ['a']⟩] =
      .ok [⟨2, ['b']⟩, ⟨3, ['c']⟩, ⟨1, ['a']⟩] :=
  (c2_validator_accepts_exactly_expected_sets [1, 2, 3] (by decide)
    [⟨2, ['b']⟩, ⟨3, ['c']⟩, ⟨1, ['a']⟩]).mpr (by decide)

/-- per-record accounted size, as a function of the record. -/
def subLineLen (s : Subtitle) : Int := wireLineLen s.Idx s.Text

/-- the scanning loop of `buildBatch` consumes a non-empty prefix of the
records (when it starts a batch), leaves the rest untouched, and the
prefix fits the budget: entirely when the scan entered with `first =
false`, and beyond its unconditionally-included head otherwise. -/
theorem buildBatchGo_spec (maxChars : Int) :
    ∀ (subs : List Subtitle) (chars : Int) (first : Bool),
      ∃ pre rem, subs = pre ++ rem ∧
        buildBatchGo maxChars subs chars first =
          (pre.map Subtitle.Idx, pre.map Subtitle.Text, rem) ∧
        (first = true → subs ≠ [] → pre ≠ []) ∧
        (first = false → pre = [] ∨ chars + (pre.map subLineLen).sum ≤ maxChars) ∧
        (∀ hd tl, pre = hd :: tl → tl = [] ∨ chars + (pre.map subLineLen).sum ≤ maxChars) := by
  intro subs
  induction subs with
  | nil =>
    intro chars first
    exact ⟨[], [], rfl, rfl, fun _ h => absurd rfl h, fun _ => Or.inl rfl,
      fun hd tl h => by simp at h⟩
  | cons s rest ih =>
    intro chars first
    by_cases hguard : ¬first = true ∧ chars + subLineLen s > maxChars
    · refine ⟨[], s :: rest, rfl, ?_, ?_, fun _ => Or.inl rfl, fun hd tl h => by simp at h⟩
      · simp only [buildBatchGo]
        rw [if_pos ⟨by simpa using hguard.1, by simpa [subLineLen, wireLineLen] using hguard.2⟩]
        simp
      · intro hf _; exact absurd hf (by simpa using hguard.1)
    · have hnotover : first = false → chars + subLineLen s ≤ maxChars := by
        intro hf
        rcases not_and_or.mp hguard with h | h
        · simp [hf] at h
        · omega
      obtain ⟨pre', rem', heq', hres', -, hbase', -⟩ := ih (chars + subLineLen s) false
      have hbnd : pre' ≠ [] → chars + subLineLen s + (pre'.map subLineLen).sum ≤ maxChars := by
        intro hne
        rcases hbase' rfl with h | h
        · exact absurd h hne
        · omega
      refine ⟨s :: pre', rem', by simp [heq'], ?_, fun _ _ => by simp, ?_, ?_⟩
      · simp only [buildBatchGo]
        rw [if_neg (by simpa [subLineLen, wireLineLen] using hguard)]
        rw [show chars + ((byteLen (FormatOneForTranslation s.Idx s.Text) : Int) + 1) =
          chars + subLineLen s from rfl, hres']
        simp
      · intro hf
        right
        simp only [List.map_cons, List.sum_cons]
        cases pre' with
        | nil => simpa using hnotover hf
        | cons p ps =>
          have := hbnd (by simp)
          omega
      · intro hd tl hpre
        obtain ⟨rfl, rfl⟩ : s = hd ∧ pre' = tl := (List.cons.injEq ..).mp hpre
        cases pre' with
        | nil => exact Or.inl rfl
        | cons p ps =>
          right
          have := hbnd (by simp)
          simp only [List.map_cons, List.sum_cons] at this ⊢
          omega

/-- `batchWireSize` of a batch built from a record prefix is the sum of
the per-record accounted sizes. -/
theorem batchWireSize_map (pre : List Subtitle) :
    batchWireSize ⟨pre.map Subtitle.Idx, pre.map Subtitle.Text⟩ = (pre.map subLineLen).sum := by
  unfold batchWireSize
  rw [List.zip_map', List.map_map]
  rfl

/-- the fuelled `buildBatches` loop, given enough fuel, partitions the
records in order and respects the budget beyond singleton batches. -/
theorem buildBatchesGo_spec (maxChars : Int) :
    ∀ (fuel : Nat) (subs : List Subtitle), subs.length ≤ fuel →
      ((buildBatchesGo maxChars fuel subs).map Batch.idxs).flatten = subs.map Subtitle.Idx ∧
      ((buildBatchesGo maxChars fuel subs).map Batch.texts).flatten = subs.map Subtitle.Text ∧
      ∀ b ∈ buildBatchesGo maxChars fuel subs,
        b.idxs ≠ [] ∧ b.idxs.length = b.texts.length ∧
        (2 ≤ b.idxs.length → batchWireSize b ≤ maxChars) := by
  intro fuel
  induction fuel with
  | zero =>
    intro subs hlen
    have : subs = [] := List.length_eq_zero.mp (Nat.le_zero.mp hlen)
    subst this
    exact ⟨rfl, rfl, fun b hb => by simp [buildBatchesGo] at hb⟩
  | succ fuel ih =>
    intro subs hlen
    cases subs with
    | nil => exact ⟨rfl, rfl, fun b hb => by simp [buildBatchesGo] at hb⟩
    | cons s rest =>
      obtain ⟨pre, rem, heq, hres, hne, -, htl⟩ :=
        buildBatchGo_spec maxChars (s :: rest) 0 true
      have hpre : pre ≠ [] := hne rfl (by simp)
      have hremlen : rem.length ≤ fuel := by
        simp only [List.length_cons] at hlen
        have := congrArg List.length heq
        simp only [List.length_cons, List.length_append] at this
        have hp : 1 ≤ pre.length := List.length_pos.mpr hpre
        omega
      have hunfold : buildBatchesGo maxChars (fuel + 1) (s :: rest) =
          ⟨pre.map Subtitle.Idx, pre.map Subtitle.Text⟩ :: buildBatchesGo maxChars fuel rem := by
        simp only [buildBatchesGo, hres]
      obtain ⟨ihA, ihB, ihC⟩ := ih rem hremlen
      refine ⟨?_, ?_, ?_⟩
      · rw [hunfold]
        simp only [List.map_cons, List.flatten_cons, ihA, heq, List.map_append]
      · rw [hunfold]
        simp only [List.map_cons, List.flatten_cons, ihB, heq, List.map_append]
      · rw [hunfold]
        intro b hb
        rcases List.mem_cons.mp hb with rfl | hb'
        · refine ⟨by simpa using hpre, by simp, ?_⟩
          intro h2
          rw [batchWireSize_map]
          cases pre with
          | nil => exact absurd rfl hpre
          | cons p ps =>
            rcases htl p ps rfl with h | h
            · subst h; simp at h2
            · omega
        · exact ihC b hb'

/-- C3: `buildBatches` partitions the records — concatenating the batches
reproduces every record id and text exactly once, in the original order —
and no batch whose size could be checked (two or more records) exceeds
the configured budget in accounted wire bytes (serialized item plus one
separator byte each); every batch contains at least the record it started
with, even when that single record alone exceeds the budget. -/
theorem c3_batching_partition_and_budget (subs : List Subtitle) (maxChars : Int) :
    ((buildBatches subs maxChars).map Batch.idxs).flatten = subs.map Subtitle.Idx ∧
    ((buildBatches subs maxChars).map Batch.texts).flatten = subs.map Subtitle.Text ∧
    ∀ b ∈ buildBatches subs maxChars,
      b.idxs ≠ [] ∧ b.idxs.length = b.texts.length ∧
      (2 ≤ b.idxs.length → batchWireSize b ≤ maxChars) :=
  buildBatchesGo_spec maxChars subs.length subs le_rfl

/-- C4 (counterexample): on the input `[{"idx":1,"text":"a"}` — a broken
JSON array whose lone brace-balanced object is perfectly parseable — the
claimed first-success semantics over all tiers decodes one line, but
`ParseTranslatedLines` returns the array tier's error without trying any
later tier: when the trimmed text starts with `[`, the array parse's
result is final. -/
theorem c4_tier_order_counterexample :
    ParseTranslatedLines ("[\x7b\"idx\":1,\"text\":\"a\"\x7d".data) = .error .invalidJSONArray ∧
    decodeTiersClaimed ("[\x7b\"idx\":1,\"text\":\"a\"\x7d".data) = .ok [⟨1, ['a']⟩] := by
  constructor
  · decide
  · decide

/-- C4 (amended): `ParseTranslatedLines` strips fences and trims, rejects
empty output, and — when the trimmed text starts with `[` — returns the
JSON-array tier's result, success or failure, without trying any other
tier; otherwise it tries the brace-extraction, strict line, line-repair
and segment-repair tiers in that order, returns the first success, and
when all four fail returns the strict line-by-line diagnostic error. -/
theorem c4_tier_order_amended :
    ∀ s : List Char, ParseTranslatedLines s = decodeTiersAmended s := by
  intro s
  unfold ParseTranslatedLines decodeTiersAmended
  dsimp only
  by_cases h0 : trimSpace (stripCodeFences (replaceCRLF s)) = []
  · rw [if_pos h0, if_pos h0]
  · rw [if_neg h0, if_neg h0]
    set out := trimSpace (stripCodeFences (replaceCRLF s)) with hout
    by_cases h1 : out.head? = some '['
    · rw [if_pos h1, if_pos h1]
    · rw [if_neg h1, if_neg h1]
      cases hb : parseWireItemsByBraces out with
      | ok r => simp [firstOk, hb]
      | error e =>
        cases hl : parseWireItemsByLines out with
        | ok r => simp [firstOk, hb, hl]
        | error e2 =>
          cases hr : parseWireItemsByLinesWithRepair out with
          | ok p => simp [firstOk, hb, hl, hr, Except.map]
          | error e3 =>
            cases ht : parseWireItemsByRepairingText out with
            | ok r => simp [firstOk, hb, hl, hr, ht, Except.map]
            | error e4 => simp [firstOk, hb, hl, hr, ht, Except.map]

end SubtitleTools
